import Mathlib

/-!
Shallow embedding of `roofitcore/src/RooAbsGoodnessOfFit.cxx`, the RooFit
goodness-of-fit evaluation engine, and proofs about its operation-mode state
machine, partition arithmetic, composite (simultaneous) decomposition and
multi-process dispatch layers.

Machine integers (`Int_t`) are modelled as `Int`, with C++ integer division
(truncation toward zero) rendered as `Int.tdiv`; counts that the source code
obtains from `numEntries()` and array lengths are modelled as `Nat`.
Floating-point results (`Double_t`) are modelled as exact rationals `ℚ`;
"within floating-point summation tolerance" statements become exact equalities
of the corresponding exact-arithmetic values.  The abstract virtual methods of
the class (`evaluatePartition`, `combinedValue`, `create`) and the external
collaborators (`RooRealMPFE`, dataset splitting) are not part of this source
file; they are modelled from the spec where needed, as flagged on each
definition.
-/

namespace RooGOF

/-- Operating mode of the engine (`RooAbsGoodnessOfFit::GOFOpMode`):
exactly one of `SimMaster`, `MPMaster`, `Slave`. -/
inductive GOFOpMode where
  | SimMaster
  | MPMaster
  | Slave
deriving DecidableEq

/-- One declared state of the simultaneous pdf's index category, together with
what the bound model and the category-split dataset provide for it.
`hasPdf` models `simpdf->getPdf(type->GetName()) != 0`; `data` models the
result of `dsetList->FindObject(type->GetName())`: `some n` is a subset with
`n` dataset entries, `none` means the split produced no subset for this state
(per the spec the split yields a subset exactly for the states with matching
data entries). -/
structure CatState where
  name : String
  hasPdf : Bool
  data : Option Nat
deriving DecidableEq

/-- A child engine created by `initSimMode` via the virtual `create` factory.
Child engines of a `SimMaster` are slave evaluators over their own data
subset; we record the observable state the parent installs on them: identity,
event count, `setSimCount` value, partition selector, and how many
server-redirection / constant-optimization notifications the parent has
forwarded to them. -/
structure GOFChild where
  name : String
  nEvents : Nat
  simCount : Nat
  setNum : Int
  numSets : Int
  redirectCount : Nat
  constOptCount : Nat
deriving DecidableEq

/-- A worker front-end (`RooRealMPFE`) created by `initMPMode`.  The class
`RooRealMPFE` is not part of this source file; modelled from the spec: each
front-end wraps a private clone of the prototype engine carrying partition
selector `(i, nCPU)`, where the clone's own mode is `Slave` or `SimMaster`,
so its value is determined by the list of `(pdf-name, event-count)`
components it evaluates with that selector. -/
structure MPFE where
  name : String
  setNum : Int
  numSets : Int
  components : List (String × Nat)
  redirectCount : Nat
  constOptCount : Nat
deriving DecidableEq

/-- State of a `RooAbsGoodnessOfFit` instance.  `pdfIsSim` models whether
`dynamic_cast<RooSimultaneous*>(&pdf)` succeeds; `splitOK` models whether
`data->split(simCat)` returns a non-null list; `catStates` models the index
category's declared type set in declared order, combined with the split
result.  `gofArray`/`mpfeArray` are `none` while the corresponding C array
pointer is null.  `log` collects the diagnostic messages the instance
prints. -/
structure GOF where
  name : String
  pdfIsSim : Bool
  splitOK : Bool
  catStates : List CatState
  gofOpMode : GOFOpMode
  nEvents : Nat
  setNum : Int
  numSets : Int
  init : Bool
  simCount : Nat
  nGof : Nat
  gofArray : Option (List GOFChild)
  nCPU : Int
  mpfeArray : Option (List MPFE)
  projDeps : List String
  log : List String
deriving DecidableEq

/-- Constructor `RooAbsGoodnessOfFit::RooAbsGoodnessOfFit(name, title, pdf,
data, projDeps, nCPU)` (lines 44-82): clones the projected-dependency set,
selects the operating mode once (`nCPU > 1` gives `MPMaster`, else a
simultaneous pdf gives `SimMaster`, else `Slave`), and installs the default
trivial partition `(0, 1)`, `_simCount = 1`, `_init = kFALSE`,
`_nEvents = data.numEntries()`, null child/worker arrays. -/
def mkGOF (name : String) (pdfIsSim : Bool) (splitOK : Bool)
    (catStates : List CatState) (dataEntries : Nat) (projDeps : List String)
    (nCPU : Int) : GOF :=
  { name := name
    pdfIsSim := pdfIsSim
    splitOK := splitOK
    catStates := catStates
    gofOpMode :=
      if nCPU > 1 then .MPMaster
      else if pdfIsSim then .SimMaster
      else .Slave
    nEvents := dataEntries
    setNum := 0
    numSets := 1
    init := false
    simCount := 1
    nGof := 0
    gofArray := none
    nCPU := nCPU
    mpfeArray := none
    projDeps := projDeps
    log := [] }

/-- Modelled from the spec: `setSimCount(n)` (declared in the class header,
which is not among the provided sources) records how many sibling slave
instances exist under a common `SimMaster` parent. -/
def setSimCount (n : Nat) (g : GOF) : GOF :=
  { g with simCount := n }

/-- Eligibility test used twice in `initSimMode` (lines 297 and 313): a
category state is accepted when both a component pdf and a data subset exist
for it (`if (pdf && dset)`). -/
def eligible (s : CatState) : Bool :=
  s.hasPdf && s.data.isSome

/-- The child engine `initSimMode` builds for an accepted category state
(lines 313-321): `create(type->GetName(), type->GetName(), *pdf, *dset,
*projDeps)` with the default trivial partition, followed by
`setSimCount(_nGof)` and one `recursiveRedirectServers(_paramSet)` call
(hence `redirectCount = 1`).  Returns `none` for states without pdf or
without data subset. -/
def childOf (nGof : Nat) (s : CatState) : Option GOFChild :=
  match s.data with
  | some n =>
      if s.hasPdf then
        some { name := s.name, nEvents := n, simCount := nGof,
               setNum := 0, numSets := 1, redirectCount := 1,
               constOptCount := 0 }
      else none
  | none => none

/-- Informational message printed when a slave calculator is created
(lines 314-315; the running index printed by the source is omitted). -/
def createMsg (nm : String) (n : Nat) : String :=
  "RooAbsGoodnessOfFit::initSimMode: creating slave GOF calculator for state "
    ++ nm ++ " (" ++ toString n ++ " dataset entries)"

/-- Diagnostic printed for a state that has a pdf but no data subset
(lines 323-326). -/
def noDataMsg (nm : String) : String :=
  "RooAbsGoodnessOfFit::initSimMode: state " ++ nm
    ++ " has no data entries, no slave GOF calculator created"

/-- The message `initSimMode` prints while processing one category state. -/
def simModeMsg (s : CatState) : Option String :=
  match s.data, s.hasPdf with
  | some n, true => some (createMsg s.name n)
  | none, true => some (noDataMsg s.name)
  | _, _ => none

/-- The full child array built by `initSimMode`: one child per accepted
category state, each carrying `setSimCount` of the accepted-state count. -/
def simChildren (g : GOF) : List GOFChild :=
  g.catStates.filterMap (childOf (g.catStates.filter eligible).length)

/-- `RooAbsGoodnessOfFit::initSimMode` (lines 274-333).  A failed dataset
split (`!dsetList`) prints a message and calls `RooErrorHandler::softAbort()`,
modelled as `Except.error ()`: setup is aborted before any counting or child
construction.  Otherwise a first pass over the declared category states counts
the accepted ones into `_nGof`, the child array is allocated, and a second
pass creates one child per accepted state (`childOf`), printing a diagnostic
for every state with a pdf but no data. -/
def initSimMode (g : GOF) : Except Unit GOF :=
  if !g.splitOK then .error ()
  else
    .ok { g with nGof := (g.catStates.filter eligible).length,
                 gofArray := some (simChildren g),
                 log := g.log ++ g.catStates.filterMap simModeMsg }

/-- The `(pdf-name, event-count)` components of the prototype engine built by
`create(GetName(), GetTitle(), *pdf, *data, *projDeps)` in `initMPMode`
(line 253).  Modelled from the spec: the prototype's worker count is 1, so
its own mode resolves to `Slave` (one component: the whole pdf over the whole
dataset) or `SimMaster` (one component per accepted category state). -/
def protoComponents (g : GOF) : List (String × Nat) :=
  if g.pdfIsSim then
    g.catStates.filterMap fun s =>
      match s.data with
      | some n => if s.hasPdf then some (s.name, n) else none
      | none => none
  else [(g.name, g.nEvents)]

/-- The worker front-ends built by `initMPMode`: front-end `i` wraps a clone
of the prototype with partition selector `(i, nCPU)` and a derived unique
identity. -/
def mpWorkers (g : GOF) : List MPFE :=
  (List.range g.nCPU.toNat).map fun (i : Nat) =>
    ({ name := g.name ++ "_MPFE" ++ toString i,
       setNum := (i : Int), numSets := g.nCPU,
       components := protoComponents g,
       redirectCount := 0, constOptCount := 0 } : MPFE)

/-- `RooAbsGoodnessOfFit::initMPMode` (lines 246-271).  Modelled from the
spec for the parts outside this source file: `RooRealMPFE` wraps a private
clone of the prototype, so front-end `i` carries the prototype components
with partition selector `(i, nCPU)` and a derived unique identity.  A
simultaneous prototype is initialized during this pass (`gof->setMPSet`
triggers `initialize` in `SimMaster` mode), so a failed dataset split aborts
here exactly as in `initSimMode`. -/
def initMPMode (g : GOF) : Except Unit GOF :=
  if g.pdfIsSim && !g.splitOK then .error ()
  else .ok { g with mpfeArray := some (mpWorkers g) }

/-- `RooAbsGoodnessOfFit::initialize` (lines 182-193): if `_init` is already
set, return `kFALSE` immediately; otherwise run the mode-specific setup
(`initMPMode` for `MPMaster`, `initSimMode` for `SimMaster`, nothing for
`Slave`), set `_init = kTRUE`, and return `kFALSE`. -/
def initGOF (g : GOF) : Except Unit (Bool × GOF) :=
  if g.init then .ok (false, g)
  else
    match g.gofOpMode with
    | .MPMaster => (initMPMode g).map fun g2 => (false, { g2 with init := true })
    | .SimMaster => (initSimMode g).map fun g2 => (false, { g2 with init := true })
    | .Slave => .ok (false, { g with init := true })

/-- Modelled from the spec: the pure virtual `evaluatePartition(firstEvent,
lastEvent)` of a concrete goodness-of-fit subclass, as a function of the pdf
identity (our engines and children carry the pdf's name) and the partition
bounds. -/
abbrev PartitionEvaluator := String → Int → Int → ℚ

/-- The `nFirst` computed by Slave-mode `evaluate` (line 172):
`_nEvents * _setNum / _numSets` in `Int_t` arithmetic, i.e. truncating
division. -/
def nFirstOf (nEvents : Nat) (setNum numSets : Int) : Int :=
  Int.tdiv ((nEvents : Int) * setNum) numSets

/-- The `nLast` computed by Slave-mode `evaluate` (line 173):
`_nEvents * (_setNum+1) / _numSets` in `Int_t` arithmetic. -/
def nLastOf (nEvents : Nat) (setNum numSets : Int) : Int :=
  Int.tdiv ((nEvents : Int) * (setNum + 1)) numSets

/-- Value of one slave evaluation: `evaluatePartition(nFirst, nLast)` over
the engine's own event range with its own partition selector. -/
def slaveValue (ep : PartitionEvaluator) (nm : String) (nEvents : Nat)
    (setNum numSets : Int) : ℚ :=
  ep nm (nFirstOf nEvents setNum numSets) (nLastOf nEvents setNum numSets)

/-- Modelled from the spec: the virtual `combinedValue(array, n)` is the
plain arithmetic sum of the sub-results (§4.4 of the spec; its body is not
in this source file). -/
def combinedValue (vs : List ℚ) : ℚ :=
  vs.sum

/-- Value contributed by one `SimMaster` child: the child is a slave
evaluator over its own subset with its own selector. -/
def childValue (ep : PartitionEvaluator) (c : GOFChild) : ℚ :=
  slaveValue ep c.name c.nEvents c.setNum c.numSets

/-- Value returned by one worker front-end after `calculate()`: the wrapped
clone evaluates its components (slave evaluations) under the front-end's
partition selector and combines them. -/
def mpfeValue (ep : PartitionEvaluator) (w : MPFE) : ℚ :=
  combinedValue (w.components.map fun p => slaveValue ep p.1 p.2 w.setNum w.numSets)

/-- The mode dispatch of `RooAbsGoodnessOfFit::evaluate` (lines 153-177):
`SimMaster` combines the child results, `MPMaster` starts `calculate()` on
every front-end and combines the front-end results, `Slave` evaluates the
partition `[nFirst, nLast)` computed from `(_setNum, _numSets)`. -/
def gofValue (ep : PartitionEvaluator) (g : GOF) : ℚ :=
  match g.gofOpMode with
  | .SimMaster => combinedValue ((g.gofArray.getD []).map (childValue ep))
  | .MPMaster => combinedValue ((g.mpfeArray.getD []).map (mpfeValue ep))
  | .Slave => slaveValue ep g.name g.nEvents g.setNum g.numSets

/-- `RooAbsGoodnessOfFit::evaluate` (lines 146-178): one-time initialization
guarded by `_init`, then the mode dispatch `gofValue` on the (possibly just
initialized) state. -/
def evaluate (ep : PartitionEvaluator) (g0 : GOF) : Except Unit (ℚ × GOF) :=
  match (if g0.init then .ok (false, g0) else initGOF g0 : Except Unit (Bool × GOF)) with
  | .error e => .error e
  | .ok (_, g) => .ok (gofValue ep g, g)

/-- `RooAbsGoodnessOfFit::redirectServersHook` (lines 197-211): in
`SimMaster` mode, forwards `recursiveRedirectServers` to every non-null
child; in `MPMaster` mode the body is the parked comment `WVE implement
this` and nothing is forwarded; returns `kFALSE` in all modes. -/
def redirectServersHook (g : GOF) : Bool × GOF :=
  match g.gofOpMode with
  | .SimMaster =>
      (false, { g with gofArray := g.gofArray.map (List.map fun c => { c with redirectCount := c.redirectCount + 1 }) })
  | .MPMaster => (false, g)
  | .Slave => (false, g)

/-- `RooAbsGoodnessOfFit::constOptimize` (lines 214-228): calls
`initialize()` first, then forwards the opcode to every non-null child in
`SimMaster` mode and to every worker front-end in `MPMaster` mode. -/
def constOptimize (g0 : GOF) : Except Unit GOF :=
  (initGOF g0).map fun p =>
    let g := p.2
    match g.gofOpMode with
    | .SimMaster =>
        { g with gofArray := g.gofArray.map (List.map fun c => { c with constOptCount := c.constOptCount + 1 }) }
    | .MPMaster =>
        { g with mpfeArray := g.mpfeArray.map (List.map fun w => { w with constOptCount := w.constOptCount + 1 }) }
    | .Slave => g

/-- `RooAbsGoodnessOfFit::setMPSet` (lines 232-243): unconditionally records
`_setNum = setNum; _numSets = numSets` (no validation of the selector), and
in `SimMaster` mode additionally calls `initialize()` and forwards the same
selector to every non-null child. -/
def setMPSet (setNum numSets : Int) (g0 : GOF) : Except Unit GOF :=
  let g := { g0 with setNum := setNum, numSets := numSets }
  match g.gofOpMode with
  | .SimMaster =>
      (initGOF g).map fun p =>
        { p.2 with gofArray := p.2.gofArray.map (List.map fun c => { c with setNum := setNum, numSets := numSets }) }
  | _ => .ok g

/-- Reading `arr[i]->Clone()` for every `i < n` from a possibly null C array:
`none` models the undefined behavior of dereferencing a null or too-short
array. -/
def cloneArray {α : Type} (arr : Option (List α)) (n : Nat) : Option (List α) :=
  match arr with
  | none => if n = 0 then some [] else none
  | some xs => if n ≤ xs.length then some (xs.take n) else none

/-- Copy constructor `RooAbsGoodnessOfFit::RooAbsGoodnessOfFit(other, name)`
(lines 86-119): copies every scalar member (including `_init`), clones the
projected-dependency set by value, and — keyed on the operating mode alone,
with no `_init` check — rebuilds `_gofArray` from `other._gofArray[0.._nGof)`
in `SimMaster` mode and `_mpfeArray` from `other._mpfeArray[0.._nCPU)` in
`MPMaster` mode, cloning each element. -/
def copyGOF (other : GOF) : Option GOF :=
  match other.gofOpMode with
  | .SimMaster =>
      (cloneArray other.gofArray other.nGof).map fun a =>
        { other with gofArray := some a }
  | .MPMaster =>
      (cloneArray other.mpfeArray other.nCPU.toNat).map fun a =>
        { other with mpfeArray := some a }
  | .Slave => some other

end RooGOF

namespace RooGOF

/-- For nonnegative operands the truncating `Int_t` division in `nFirstOf`
agrees with natural-number (floor) division. -/
theorem nFirstOf_cast (E i m : Nat) :
    nFirstOf E (i : Int) (m : Int) = ((E * i / m : Nat) : Int) := by
  unfold nFirstOf
  rw [← Int.natCast_mul]
  rfl

/-- For nonnegative operands the truncating `Int_t` division in `nLastOf`
agrees with natural-number (floor) division. -/
theorem nLastOf_cast (E i m : Nat) :
    nLastOf E (i : Int) (m : Int) = ((E * (i + 1) / m : Nat) : Int) := by
  unfold nLastOf
  have h : ((i : Int) + 1) = ((i + 1 : Nat) : Int) := by push_cast; ring
  rw [h, ← Int.natCast_mul]
  rfl

/-- Slice boundaries are monotone in the partition index. -/
theorem slice_mono (E m : Nat) {i j : Nat} (h : i ≤ j) :
    E * i / m ≤ E * j / m :=
  Nat.div_le_div_right (Nat.mul_le_mul_left E h)

/-- Every entry index below `E` lies in some slice: existence half of the
exact-cover property, via the greatest partition index whose lower boundary
is at most `k`. -/
theorem slice_exists (E m k : Nat) (hm : 0 < m) (hk : k < E) :
    ∃ i, i < m ∧ E * i / m ≤ k ∧ k < E * (i + 1) / m := by
  have hP0 : E * 0 / m ≤ k := by simp
  have hile : Nat.findGreatest (fun j => E * j / m ≤ k) (m - 1) ≤ m - 1 :=
    Nat.findGreatest_le _
  have hPi : E * Nat.findGreatest (fun j => E * j / m ≤ k) (m - 1) / m ≤ k :=
    Nat.findGreatest_spec (P := fun j => E * j / m ≤ k) (Nat.zero_le _) hP0
  refine ⟨Nat.findGreatest (fun j => E * j / m ≤ k) (m - 1), by omega, hPi, ?_⟩
  rcases Nat.lt_or_ge (Nat.findGreatest (fun j => E * j / m ≤ k) (m - 1)) (m - 1) with hlt | hge
  · have hgt := Nat.lt_succ_self (Nat.findGreatest (fun j => E * j / m ≤ k) (m - 1))
    have hnot := @Nat.findGreatest_is_greatest
      (Nat.findGreatest (fun j => E * j / m ≤ k) (m - 1) + 1)
      (fun j => E * j / m ≤ k) inferInstance (m - 1) hgt (by omega)
    simp only [] at hnot
    omega
  · have hieq : Nat.findGreatest (fun j => E * j / m ≤ k) (m - 1) = m - 1 :=
      le_antisymm hile hge
    rw [hieq]
    have h1 : m - 1 + 1 = m := by omega
    rw [h1, Nat.mul_div_cancel E hm]
    exact hk

/-- The partition property claimed for Slave-mode slices with `nEvents = E`
and `numSets = m`: the first slice starts at 0, the last slice ends at `E`,
adjacent boundaries agree, and the slices `[nFirst i, nLast i)` for
`i = 0, ..., m-1` cover exactly the entry indices in `[0, E)` with no
overlap. -/
def slicesPartition (E m : Nat) : Prop :=
  nFirstOf E 0 (m : Int) = 0 ∧
  nLastOf E ((m : Int) - 1) (m : Int) = (E : Int) ∧
  (∀ i : Nat, 1 ≤ i → i < m →
    nFirstOf E (i : Int) (m : Int) = nLastOf E ((i : Int) - 1) (m : Int)) ∧
  (∀ k : Int, (0 ≤ k ∧ k < (E : Int)) ↔
    ∃ i : Nat, i < m ∧ nFirstOf E (i : Int) (m : Int) ≤ k ∧
      k < nLastOf E (i : Int) (m : Int)) ∧
  (∀ i j : Nat, ∀ k : Int, i < j → j < m →
    ¬(nFirstOf E (i : Int) (m : Int) ≤ k ∧ k < nLastOf E (i : Int) (m : Int) ∧
      nFirstOf E (j : Int) (m : Int) ≤ k ∧ k < nLastOf E (j : Int) (m : Int)))

/-- C1: Slave-mode `evaluate` computes `nFirst = nEvents*setNum/numSets` and
`nLast = nEvents*(setNum+1)/numSets` by truncating integer division and
evaluates the partition `[nFirst, nLast)`; for every `nEvents ≥ 0` and
`numSets ≥ 1`, across `setNum = 0, ..., numSets-1` these slices exactly cover
`[0, nEvents)` with no overlap and no gap: `nFirst(0) = 0`,
`nLast(numSets-1) = nEvents`, and `nFirst(i) = nLast(i-1)` for
`1 ≤ i < numSets`. -/
theorem C1_slave_partition_exact_cover (E m : Nat) (hm : 1 ≤ m) :
    (∀ (ep : PartitionEvaluator) (g : GOF), g.gofOpMode = .Slave → g.init = true →
      evaluate ep g = .ok (ep g.name (nFirstOf g.nEvents g.setNum g.numSets)
        (nLastOf g.nEvents g.setNum g.numSets), g)) ∧
    slicesPartition E m := by
  have hmpos : 0 < m := hm
  constructor
  · intro ep g hmode hinit
    simp [evaluate, gofValue, hinit, hmode, slaveValue]
  refine ⟨?_, ?_, ?_, ?_, ?_⟩
  · have h0 := nFirstOf_cast E 0 m
    simpa using h0
  · have hsub : ((m : Int) - 1) = ((m - 1 : Nat) : Int) := by
      rw [Nat.cast_sub hm]; push_cast; ring
    rw [hsub, nLastOf_cast]
    have h1 : m - 1 + 1 = m := by omega
    rw [h1, Nat.mul_div_cancel E hmpos]
  · intro i h1i him
    unfold nFirstOf nLastOf
    congr 1
    ring
  · intro k
    constructor
    · rintro ⟨hk0, hkE⟩
      have hkn : k.toNat < E := by omega
      obtain ⟨i, him, h1, h2⟩ := slice_exists E m k.toNat hmpos hkn
      refine ⟨i, him, ?_, ?_⟩
      · rw [nFirstOf_cast]; omega
      · rw [nLastOf_cast]; omega
    · rintro ⟨i, him, h1, h2⟩
      rw [nFirstOf_cast] at h1
      rw [nLastOf_cast] at h2
      have hle : E * (i + 1) / m ≤ E := by
        have h3 := slice_mono E m (show i + 1 ≤ m by omega)
        rw [Nat.mul_div_cancel E hmpos] at h3
        exact h3
      have hd : (0 : Int) ≤ ((E * i / m : Nat) : Int) := Int.natCast_nonneg _
      constructor <;> omega
  · intro i j k hij hjm hall
    obtain ⟨hi1, hi2, hj1, hj2⟩ := hall
    rw [nLastOf_cast] at hi2
    rw [nFirstOf_cast] at hj1
    have h3 : E * (i + 1) / m ≤ E * j / m := slice_mono E m (by omega)
    omega

/-- Witness for C1: the hypothesis and conclusion hold at the concrete input
`nEvents = 7`, `numSets = 3`. -/
theorem C1_slave_partition_exact_cover_witness :
    1 ≤ 3 ∧
    ((∀ (ep : PartitionEvaluator) (g : GOF), g.gofOpMode = .Slave → g.init = true →
      evaluate ep g = .ok (ep g.name (nFirstOf g.nEvents g.setNum g.numSets)
        (nLastOf g.nEvents g.setNum g.numSets), g)) ∧
    slicesPartition 7 3) :=
  ⟨by decide, C1_slave_partition_exact_cover 7 3 (by decide)⟩

end RooGOF

namespace RooGOF

/-- Inversion principle for `Except.map` producing an `ok` result. -/
theorem map_ok {α β γ : Type} {f : β → γ} {e : Except α β} {c : γ}
    (h : e.map f = .ok c) : ∃ b, e = .ok b ∧ f b = c := by
  cases e with
  | error a => simp [Except.map] at h
  | ok b => exact ⟨b, rfl, by simpa [Except.map] using h⟩

/-- Inversion for a successful `initSimMode`: the split succeeded and the
result is the expected state update. -/
theorem initSimMode_ok {g g2 : GOF} (h : initSimMode g = .ok g2) :
    g.splitOK = true ∧
    g2 = { g with
      nGof := (g.catStates.filter eligible).length,
      gofArray := some (g.catStates.filterMap (childOf (g.catStates.filter eligible).length)),
      log := g.log ++ g.catStates.filterMap simModeMsg } := by
  unfold initSimMode at h
  cases hs : g.splitOK
  · rw [hs] at h; simp at h
  · rw [hs] at h; simp at h; exact ⟨rfl, h.symm⟩

/-- Inversion for a successful `initMPMode`. -/
theorem initMPMode_ok {g g2 : GOF} (h : initMPMode g = .ok g2) :
    g2 = { g with mpfeArray := some (mpWorkers g) } := by
  unfold initMPMode at h
  cases hs : (g.pdfIsSim && !g.splitOK)
  · rw [hs] at h; simp at h; exact h.symm
  · rw [hs] at h; simp at h

/-- Inversion for a successful `initialize()`: the returned Boolean is
`kFALSE`, the resulting state is initialized, and the operating mode, pdf
identity, event count and partition selector are unchanged. -/
theorem initGOF_ok {g : GOF} {b : Bool} {g2 : GOF}
    (h : initGOF g = .ok (b, g2)) :
    b = false ∧ g2.init = true ∧ g2.gofOpMode = g.gofOpMode ∧
    g2.name = g.name ∧ g2.nEvents = g.nEvents ∧ g2.setNum = g.setNum ∧
    g2.numSets = g.numSets := by
  unfold initGOF at h
  cases hg : g.init <;> rw [hg] at h
  · simp only [Bool.false_eq_true, if_false] at h
    cases hm : g.gofOpMode <;> rw [hm] at h
    · obtain ⟨ga, hga, hfa⟩ := map_ok h
      obtain ⟨hs, hg2⟩ := initSimMode_ok hga
      obtain ⟨hb, hgg⟩ := Prod.mk.inj hfa
      subst hb hg2 hgg
      simp [hm]
    · obtain ⟨ga, hga, hfa⟩ := map_ok h
      have hg2 := initMPMode_ok hga
      obtain ⟨hb, hgg⟩ := Prod.mk.inj hfa
      subst hb hg2 hgg
      simp [hm]
    · simp only [Except.ok.injEq] at h
      obtain ⟨hb, hgg⟩ := Prod.mk.inj h
      subst hb hgg
      simp [hm]
  · simp only [if_true] at h
    simp only [Except.ok.injEq] at h
    obtain ⟨hb, hgg⟩ := Prod.mk.inj h
    subst hb hgg
    simp [hg]

/-- C10: `initialize()` returns `kFALSE` (the no-work-done signal) on every
call that returns — including the very first call, which performs the
mode-specific setup and leaves the instance with the initialized flag set —
so the Boolean return value never distinguishes whether initialization work
was performed. -/
theorem C10_initialize_always_false (g : GOF) :
    initGOF g = .error () ∨
    ∃ g2, initGOF g = .ok (false, g2) ∧ g2.init = true := by
  cases h : initGOF g with
  | error e => cases e; exact Or.inl rfl
  | ok p =>
    obtain ⟨b, g2⟩ := p
    obtain ⟨hb, hi, _⟩ := initGOF_ok h
    subst hb
    exact Or.inr ⟨g2, rfl, hi⟩

end RooGOF

namespace RooGOF

/-- A successful `setMPSet` leaves the operating mode unchanged. -/
theorem setMPSet_mode {sN nS : Int} {g g2 : GOF}
    (h : setMPSet sN nS g = .ok g2) : g2.gofOpMode = g.gofOpMode := by
  unfold setMPSet at h
  dsimp only [] at h
  split at h
  · obtain ⟨p, hp, hfp⟩ := map_ok h
    obtain ⟨b, gb⟩ := p
    obtain ⟨-, -, hmode, -, -, -, -⟩ := initGOF_ok hp
    rw [← hfp]
    simpa using hmode
  · simp only [Except.ok.injEq] at h
    rw [← h]

/-- C6: the operating mode is chosen exactly once, at construction —
`nCPU > 1` gives `MPMaster`, else a simultaneous model gives `SimMaster`,
else `Slave` — and every subsequent operation of the engine leaves the mode
unchanged: initialization, evaluation, server-redirection and
constant-optimization forwarding, partition-selector updates, `setSimCount`
and copying all preserve `_gofOpMode`. -/
theorem C6_mode_selected_once_and_final :
    (∀ (nm : String) (sim sOK : Bool) (cs : List CatState) (nE : Nat)
        (pd : List String) (nCPU : Int),
      (mkGOF nm sim sOK cs nE pd nCPU).gofOpMode =
        if nCPU > 1 then GOFOpMode.MPMaster
        else if sim then GOFOpMode.SimMaster else GOFOpMode.Slave) ∧
    (∀ g : GOF, (initGOF g).map (fun p => p.2.gofOpMode) =
      (initGOF g).map (fun _ => g.gofOpMode)) ∧
    (∀ (ep : PartitionEvaluator) (g : GOF),
      (evaluate ep g).map (fun p => p.2.gofOpMode) =
      (evaluate ep g).map (fun _ => g.gofOpMode)) ∧
    (∀ g : GOF, (redirectServersHook g).2.gofOpMode = g.gofOpMode) ∧
    (∀ g : GOF, (constOptimize g).map GOF.gofOpMode =
      (constOptimize g).map (fun _ => g.gofOpMode)) ∧
    (∀ (sN nS : Int) (g : GOF), (setMPSet sN nS g).map GOF.gofOpMode =
      (setMPSet sN nS g).map (fun _ => g.gofOpMode)) ∧
    (∀ (n : Nat) (g : GOF), (setSimCount n g).gofOpMode = g.gofOpMode) ∧
    (∀ g : GOF, (copyGOF g).map GOF.gofOpMode =
      (copyGOF g).map (fun _ => g.gofOpMode)) := by
  refine ⟨?_, ?_, ?_, ?_, ?_, ?_, ?_, ?_⟩
  · intro nm sim sOK cs nE pd nCPU
    rfl
  · intro g
    cases h : initGOF g with
    | error e => simp [Except.map]
    | ok p =>
      obtain ⟨b, g2⟩ := p
      obtain ⟨-, -, hm, -, -, -, -⟩ := initGOF_ok h
      simp [Except.map, hm]
  · intro ep g
    unfold evaluate
    cases hg : g.init
    · simp only [Bool.false_eq_true, if_false]
      cases h : initGOF g with
      | error e => simp [Except.map]
      | ok p =>
        obtain ⟨b, g2⟩ := p
        obtain ⟨-, -, hm, -, -, -, -⟩ := initGOF_ok h
        simp [Except.map, hm]
    · simp [Except.map]
  · intro g
    unfold redirectServersHook
    cases hm : g.gofOpMode <;> simp [hm]
  · intro g
    unfold constOptimize
    cases h : initGOF g with
    | error e => simp [Except.map]
    | ok p =>
      obtain ⟨b, g2⟩ := p
      obtain ⟨-, -, hm, -, -, -, -⟩ := initGOF_ok h
      cases hmm : g2.gofOpMode <;> rw [hmm] at hm <;> simp [Except.map, hmm, ← hm]
  · intro sN nS g
    cases h : setMPSet sN nS g with
    | error e => simp [Except.map]
    | ok g2 => simp [Except.map, setMPSet_mode h]
  · intro n g
    rfl
  · intro g
    unfold copyGOF
    cases hm : g.gofOpMode
    · cases hc : cloneArray g.gofArray g.nGof <;> simp [Option.map, hm]
    · cases hc : cloneArray g.mpfeArray g.nCPU.toNat <;> simp [Option.map, hm]
    · simp [hm]

end RooGOF

namespace RooGOF

/-- Inversion for a successful `evaluate`: the returned state is initialized
and a repeated call returns the same value and the same state. -/
theorem evaluate_init_state {ep : PartitionEvaluator} {g : GOF} {v : ℚ} {g1 : GOF}
    (h : evaluate ep g = .ok (v, g1)) :
    g1.init = true ∧ evaluate ep g1 = .ok (v, g1) := by
  unfold evaluate at h ⊢
  cases hg : g.init <;> rw [hg] at h
  · simp only [Bool.false_eq_true, if_false] at h
    cases hi : initGOF g with
    | error e => rw [hi] at h; simp at h
    | ok p =>
      rw [hi] at h
      obtain ⟨b, g2⟩ := p
      obtain ⟨-, hinit2, -, -, -, -, -⟩ := initGOF_ok hi
      dsimp only [] at h
      obtain ⟨hv, hg1⟩ := Prod.mk.inj (Except.ok.inj h)
      subst hg1
      subst hv
      rw [hinit2]
      exact ⟨rfl, rfl⟩
  · simp only [if_true] at h
    try dsimp only [] at h
    obtain ⟨hv, hg1⟩ := Prod.mk.inj (Except.ok.inj h)
    subst hg1
    subst hv
    rw [hg]
    exact ⟨rfl, rfl⟩

/-- C5: calling `evaluate()` twice in a row with no intervening structural
change returns the same value both times and the one-time mode-specific
initialization runs exactly once across both calls (the second call leaves
the state untouched); a repeated `initialize()` on the already-initialized
instance is a no-op returning the no-work-done signal `kFALSE`. -/
theorem C5_repeated_evaluate_stable (ep : PartitionEvaluator) (g g1 : GOF) (v : ℚ)
    (h : evaluate ep g = .ok (v, g1)) :
    evaluate ep g1 = .ok (v, g1) ∧ initGOF g1 = .ok (false, g1) ∧
    g1.init = true := by
  obtain ⟨hinit, heval⟩ := evaluate_init_state h
  refine ⟨heval, ?_, hinit⟩
  unfold initGOF
  rw [hinit]
  simp

/-- A concrete partition evaluator assigning value 1 to every partition. -/
def epOne : PartitionEvaluator := fun _ _ _ => (1 : ℚ)

/-- A concrete uninitialized Slave-mode engine over 5 events. -/
def gSlaveW : GOF := mkGOF "slave" false true [] 5 [] 1

/-- Witness for C5: the hypothesis and conclusion hold at a concrete Slave
engine and partition evaluator. -/
theorem C5_repeated_evaluate_stable_witness :
    evaluate epOne gSlaveW = .ok (1, { gSlaveW with init := true }) ∧
    (evaluate epOne { gSlaveW with init := true } =
        .ok (1, { gSlaveW with init := true }) ∧
     initGOF { gSlaveW with init := true } =
        .ok (false, { gSlaveW with init := true }) ∧
     ({ gSlaveW with init := true } : GOF).init = true) :=
  ⟨by rfl, C5_repeated_evaluate_stable epOne gSlaveW
    { gSlaveW with init := true } 1 (by rfl)⟩

/-- C4: if splitting the dataset by the index category fails during
`SimMaster` initialization, the engine aborts setup with an unrecoverable
error signal before any child engine is constructed, and the abort surfaces
to the `evaluate()` caller; there is no partial-decomposition or
empty-result fallback. -/
theorem C4_split_failure_aborts (ep : PartitionEvaluator) (g : GOF)
    (hmode : g.gofOpMode = .SimMaster) (hsplit : g.splitOK = false)
    (hinit : g.init = false) :
    initSimMode g = .error () ∧ initGOF g = .error () ∧
    evaluate ep g = .error () := by
  have h1 : initSimMode g = .error () := by
    unfold initSimMode
    rw [hsplit]
    rfl
  have h2 : initGOF g = .error () := by
    unfold initGOF
    rw [hinit, hmode, h1]
    rfl
  refine ⟨h1, h2, ?_⟩
  unfold evaluate
  rw [hinit, h2]
  rfl

/-- A concrete uninitialized SimMaster-mode engine whose dataset split
fails. -/
def gSimBad : GOF := mkGOF "simbad" true false [⟨"A", true, some 3⟩] 3 [] 1

/-- Witness for C4 at the concrete failing-split SimMaster engine. -/
theorem C4_split_failure_aborts_witness :
    (gSimBad.gofOpMode = .SimMaster ∧ gSimBad.splitOK = false ∧
     gSimBad.init = false) ∧
    (initSimMode gSimBad = .error () ∧ initGOF gSimBad = .error () ∧
     evaluate epOne gSimBad = .error ()) :=
  ⟨⟨rfl, rfl, rfl⟩, C4_split_failure_aborts epOne gSimBad rfl rfl rfl⟩

end RooGOF

namespace RooGOF

/-- The children built by `initSimMode` carry exactly the names of the
accepted (pdf-and-data) category states, in declared order. -/
theorem filterMap_childOf_names (cs : List CatState) (nG : Nat) :
    (cs.filterMap (childOf nG)).map GOFChild.name =
    (cs.filter eligible).map CatState.name := by
  induction cs with
  | nil => rfl
  | cons s t ih =>
    cases hd : s.data <;> cases hp : s.hasPdf <;>
      simp [childOf, eligible, hd, hp, ih]

/-- One child is built per accepted category state. -/
theorem filterMap_childOf_length (cs : List CatState) (nG : Nat) :
    (cs.filterMap (childOf nG)).length = (cs.filter eligible).length := by
  have h := congrArg List.length (filterMap_childOf_names cs nG)
  simpa using h

/-- Every child built by `initSimMode` received `setSimCount nG`. -/
theorem filterMap_childOf_simCount (cs : List CatState) (nG : Nat) :
    ∀ c ∈ cs.filterMap (childOf nG), c.simCount = nG := by
  intro c hc
  rw [List.mem_filterMap] at hc
  obtain ⟨s, hs, hcs⟩ := hc
  unfold childOf at hcs
  cases hd : s.data <;> rw [hd] at hcs
  · simp at hcs
  · cases hp : s.hasPdf <;> rw [hp] at hcs <;> simp at hcs
    rw [← hcs]

/-- C2: after successful SimMaster initialization, `_nGof` and the child
array length both equal the number of category states having both a
sub-model and a data subset; every accepted child received
`setSimCount(_nGof)`; the children are exactly the accepted states in
declared order; and every state with a sub-model but no data contributed a
diagnostic message instead of a child. -/
theorem C2_simmaster_children (g : GOF) (b : Bool) (g2 : GOF)
    (hmode : g.gofOpMode = .SimMaster) (hinit : g.init = false)
    (h : initGOF g = .ok (b, g2)) :
    g2.nGof = (g.catStates.filter eligible).length ∧
    ∃ children, g2.gofArray = some children ∧
      children.length = (g.catStates.filter eligible).length ∧
      (∀ c ∈ children, c.simCount = (g.catStates.filter eligible).length) ∧
      children.map GOFChild.name = (g.catStates.filter eligible).map CatState.name ∧
      (∀ s ∈ g.catStates, s.hasPdf = true → s.data = none →
        noDataMsg s.name ∈ g2.log) := by
  unfold initGOF at h
  rw [hinit, hmode] at h
  simp only [Bool.false_eq_true, if_false] at h
  obtain ⟨ga, hga, hfa⟩ := map_ok h
  obtain ⟨hs, hg2⟩ := initSimMode_ok hga
  obtain ⟨hb, hgg⟩ := Prod.mk.inj hfa
  subst hg2 hgg
  refine ⟨rfl, g.catStates.filterMap (childOf (g.catStates.filter eligible).length),
    rfl, filterMap_childOf_length g.catStates _,
    filterMap_childOf_simCount g.catStates _,
    filterMap_childOf_names g.catStates _, ?_⟩
  intro s hsmem hpdf hdata
  show noDataMsg s.name ∈ g.log ++ g.catStates.filterMap simModeMsg
  rw [List.mem_append]
  right
  rw [List.mem_filterMap]
  exact ⟨s, hsmem, by simp [simModeMsg, hdata, hpdf]⟩

/-- A concrete SimMaster engine over three declared category states, one of
which has a model but no data. -/
def gSim3 : GOF := mkGOF "sim" true true
  [⟨"A", true, some 10⟩, ⟨"B", true, none⟩, ⟨"C", true, some 5⟩] 15 [] 1

/-- The state of `gSim3` after its first initialization. -/
def gSim3post : GOF := (((initGOF gSim3).toOption).map Prod.snd).getD gSim3

/-- Witness for C2: at `gSim3` (three declared states, two with data) the
hypotheses hold and the conclusion gives a child array of length 2. -/
theorem C2_simmaster_children_witness :
    (gSim3.gofOpMode = .SimMaster ∧ gSim3.init = false ∧
     initGOF gSim3 = .ok (false, gSim3post)) ∧
    (gSim3post.nGof = (gSim3.catStates.filter eligible).length ∧
     ∃ children, gSim3post.gofArray = some children ∧
       children.length = (gSim3.catStates.filter eligible).length ∧
       (∀ c ∈ children, c.simCount = (gSim3.catStates.filter eligible).length) ∧
       children.map GOFChild.name = (gSim3.catStates.filter eligible).map CatState.name ∧
       (∀ s ∈ gSim3.catStates, s.hasPdf = true → s.data = none →
         noDataMsg s.name ∈ gSim3post.log)) :=
  ⟨⟨rfl, rfl, rfl⟩,
   C2_simmaster_children gSim3 false gSim3post rfl rfl rfl⟩

end RooGOF

namespace RooGOF

/-- On an already-initialized engine, `initialize()` is an immediate no-op
returning `kFALSE`. -/
theorem initGOF_of_init {g : GOF} (h : g.init = true) :
    initGOF g = .ok (false, g) := by
  unfold initGOF
  rw [h]
  rfl

/-- A concrete uninitialized MPMaster engine requesting two workers. -/
def gMP2 : GOF := mkGOF "mp" false true [] 8 [] 2

/-- The state of `gMP2` after its first initialization: two worker
front-ends exist, neither has received any server redirection. -/
def gMP2post : GOF := (((initGOF gMP2).toOption).map Prod.snd).getD gMP2

/-- C3 counterexample: on an initialized MPMaster engine with two worker
front-ends, `redirectServersHook` (whose MPMaster branch is the parked
comment `WVE implement this` in the source) forwards the server redirection
to no worker front-end: the call leaves the state completely unchanged and
both front-ends' received-redirection counts stay 0, refuting the claim that
a server-redirection notification is forwarded to every worker front-end in
MPMaster mode. -/
theorem C3_counterexample :
    gMP2post.gofOpMode = .MPMaster ∧
    gMP2post.init = true ∧
    Option.map List.length gMP2post.mpfeArray = some 2 ∧
    redirectServersHook gMP2post = (false, gMP2post) ∧
    Option.map (List.map MPFE.redirectCount) gMP2post.mpfeArray = some [0, 0] ∧
    Option.map (List.map MPFE.redirectCount) (redirectServersHook gMP2post).2.mpfeArray
      = some [0, 0] :=
  ⟨rfl, rfl, rfl, rfl, rfl, rfl⟩

/-- C3 amended: on an initialized engine, both structural-change
notifications are forwarded to every child engine in SimMaster mode, and
`constOptimize` is forwarded to every worker front-end in MPMaster mode,
but `redirectServersHook` in MPMaster mode is unimplemented and forwards to
no worker (the state is returned unchanged). -/
theorem C3_structural_change_fanout (g : GOF) (hinit : g.init = true) :
    (g.gofOpMode = .SimMaster →
      (redirectServersHook g).2.gofArray = g.gofArray.map (List.map fun c => { c with redirectCount := c.redirectCount + 1 }) ∧
      constOptimize g = .ok ({ g with gofArray := g.gofArray.map (List.map fun c => { c with constOptCount := c.constOptCount + 1 }) })) ∧
    (g.gofOpMode = .MPMaster →
      redirectServersHook g = (false, g) ∧
      constOptimize g = .ok ({ g with mpfeArray := g.mpfeArray.map (List.map fun w => { w with constOptCount := w.constOptCount + 1 }) })) := by
  constructor
  · intro hm
    constructor
    · unfold redirectServersHook
      rw [hm]
    · unfold constOptimize
      rw [initGOF_of_init hinit]
      simp only [Except.map]
      rw [hm]
  · intro hm
    constructor
    · unfold redirectServersHook
      rw [hm]
    · unfold constOptimize
      rw [initGOF_of_init hinit]
      simp only [Except.map]
      rw [hm]

/-- Witness for the amended C3 at the concrete initialized MPMaster engine
`gMP2post`. -/
theorem C3_structural_change_fanout_witness :
    gMP2post.init = true ∧
    ((gMP2post.gofOpMode = .SimMaster →
      (redirectServersHook gMP2post).2.gofArray = gMP2post.gofArray.map (List.map fun c => { c with redirectCount := c.redirectCount + 1 }) ∧
      constOptimize gMP2post = .ok ({ gMP2post with gofArray := gMP2post.gofArray.map (List.map fun c => { c with constOptCount := c.constOptCount + 1 }) })) ∧
    (gMP2post.gofOpMode = .MPMaster →
      redirectServersHook gMP2post = (false, gMP2post) ∧
      constOptimize gMP2post = .ok ({ gMP2post with mpfeArray := gMP2post.mpfeArray.map (List.map fun w => { w with constOptCount := w.constOptCount + 1 }) }))) :=
  ⟨rfl, C3_structural_change_fanout gMP2post rfl⟩

/-- C7 counterexample: `setMPSet` applied with the invalid selector
`(setNum, numSets) = (2, 0)` — violating both `numSets ≥ 1` and
`setNum < numSets` — to a Slave-mode engine succeeds, silently records the
invalid values and reports nothing (no error is signalled and the log is
unchanged), refuting the claim that invalid partition selectors are treated
as programming errors and reported immediately. -/
theorem C7_counterexample :
    gSlaveW.gofOpMode = .Slave ∧
    setMPSet 2 0 gSlaveW = .ok { gSlaveW with setNum := 2, numSets := 0 } ∧
    ({ gSlaveW with setNum := 2, numSets := 0 } : GOF).log = gSlaveW.log :=
  ⟨rfl, rfl, rfl⟩

/-- C7 amended: `setMPSet` records any selector pair — valid or not —
unconditionally, with no validation, no diagnostic and no error signal; in
SimMaster mode it additionally initializes and forwards the selector to
every child, still without validating it. -/
theorem C7_setMPSet_records_unconditionally (g : GOF) (sN nS : Int)
    (h : g.gofOpMode = .SimMaster → g.init = true) :
    ∃ g2, setMPSet sN nS g = .ok g2 ∧ g2.setNum = sN ∧ g2.numSets = nS ∧
      g2.log = g.log := by
  unfold setMPSet
  dsimp only []
  split
  next hm =>
    have hinit : g.init = true := h (by simpa using hm)
    rw [initGOF_of_init (g := { g with setNum := sN, numSets := nS }) hinit]
    simp only [Except.map]
    exact ⟨_, rfl, rfl, rfl, rfl⟩
  next =>
    exact ⟨_, rfl, rfl, rfl, rfl⟩

/-- Witness for the amended C7 at the concrete Slave engine `gSlaveW` with
the invalid selector `(2, 0)`. -/
theorem C7_setMPSet_records_unconditionally_witness :
    (gSlaveW.gofOpMode = .SimMaster → gSlaveW.init = true) ∧
    (∃ g2, setMPSet 2 0 gSlaveW = .ok g2 ∧ g2.setNum = 2 ∧ g2.numSets = 0 ∧
      g2.log = gSlaveW.log) :=
  ⟨by intro hcon; exact absurd hcon (by decide),
   C7_setMPSet_records_unconditionally gSlaveW 2 0
     (by intro hcon; exact absurd hcon (by decide))⟩

/-- A concrete uninitialized MPMaster engine (two workers requested, worker
array pointer still null). -/
def gMPun : GOF := mkGOF "m" false true [] 5 ["x"] 2

/-- C9: the copy constructor keys the worker-array clone on the operating
mode alone, with no `_init` guard (the destructor, by contrast, checks
`_gofOpMode==MPMaster && _init`): copying an uninitialized MPMaster engine
reads `other._mpfeArray[i]` for every `i < _nCPU` from the null worker-array
pointer — undefined behavior, modelled as `none` — instead of performing no
setup and deferring worker construction to the copy's first evaluation as
the claim states. -/
theorem C9_copy_uninitialized_mpmaster_crashes :
    gMPun.gofOpMode = .MPMaster ∧ gMPun.init = false ∧
    gMPun.mpfeArray = none ∧ copyGOF gMPun = none :=
  ⟨rfl, rfl, rfl, rfl⟩

end RooGOF

namespace RooGOF

/-- Exchanging the two summations when every worker sums over the same
component list. -/
theorem list_sum_comm {α β : Type} (l1 : List α) (l2 : List β) (v : α → β → ℚ) :
    (l1.map (fun a => (l2.map (fun b => v a b)).sum)).sum =
    (l2.map (fun b => (l1.map (fun a => v a b)).sum)).sum := by
  induction l1 with
  | nil => simp
  | cons a t ih =>
    simp only [List.map_cons, List.sum_cons, ih, ← List.sum_map_add]

/-- Telescoping an interval-additive partition evaluator over adjacent
slices with monotone nonnegative boundaries. -/
theorem telescope_sum (f : Int → Int → ℚ)
    (hadd : ∀ a b c : Int, 0 ≤ a → a ≤ b → b ≤ c → f a c = f a b + f b c)
    (u : Nat → Int) (h0 : u 0 = 0) (hm : ∀ i j : Nat, i ≤ j → u i ≤ u j) :
    ∀ n : Nat, 1 ≤ n →
      ((List.range n).map (fun i => f (u i) (u (i + 1)))).sum = f (u 0) (u n) := by
  intro n hn
  induction n with
  | zero => exact absurd hn (by omega)
  | succ n ih =>
    cases Nat.eq_zero_or_pos n with
    | inl hz =>
      subst hz
      have hr : List.range 1 = [0] := rfl
      rw [hr]
      simp
    | inr hpos =>
      rw [List.range_succ, List.map_append, List.sum_append, ih hpos]
      simp only [List.map_cons, List.map_nil, List.sum_cons, List.sum_nil, add_zero]
      rw [← hadd (u 0) (u n) (u (n + 1)) (by simp [h0]) (hm 0 n (by omega))
        (hm n (n + 1) (by omega))]

/-- Summing one component's slave evaluations over all `N` partition
selectors reproduces its full-range evaluation, provided the partition
evaluator is interval-additive. -/
theorem mp_component_sum (ep : PartitionEvaluator) (nm : String) (nE : Nat)
    (N : Nat) (hN : 1 ≤ N)
    (hadd : ∀ a b c : Int, 0 ≤ a → a ≤ b → b ≤ c → ep nm a c = ep nm a b + ep nm b c) :
    ((List.range N).map (fun (i : Nat) => slaveValue ep nm nE (i : Int) (N : Int))).sum =
      ep nm 0 (nE : Int) := by
  have hmain := telescope_sum (fun a b => ep nm a b) hadd
    (fun i => ((nE * i / N : Nat) : Int)) (by simp)
    (fun i j hij => by simpa using Int.ofNat_le.mpr (slice_mono nE N hij)) N hN
  simp only [] at hmain
  have hmap : (List.range N).map (fun (i : Nat) => slaveValue ep nm nE (i : Int) (N : Int)) =
      (List.range N).map (fun (i : Nat) => ep nm ((nE * i / N : Nat) : Int) ((nE * (i + 1) / N : Nat) : Int)) := by
    refine List.map_congr_left ?_
    intro i hi
    unfold slaveValue
    rw [nFirstOf_cast, nLastOf_cast]
  rw [hmap, hmain]
  rw [Nat.mul_div_cancel nE (show 0 < N by omega)]
  simp

end RooGOF

namespace RooGOF

/-- First evaluation of an uninitialized Slave engine. -/
theorem evaluate_slave (ep : PartitionEvaluator) (g : GOF)
    (hmode : g.gofOpMode = .Slave) (hinit : g.init = false) :
    evaluate ep g = .ok (slaveValue ep g.name g.nEvents g.setNum g.numSets,
      { g with init := true }) := by
  unfold evaluate initGOF
  rw [hinit, hmode]
  simp only [Bool.false_eq_true, if_false]
  simp [gofValue, hmode]

/-- First evaluation of an uninitialized SimMaster engine with a successful
dataset split. -/
theorem evaluate_simmaster (ep : PartitionEvaluator) (g : GOF)
    (hmode : g.gofOpMode = .SimMaster) (hinit : g.init = false)
    (hsplit : g.splitOK = true) :
    evaluate ep g = .ok (combinedValue ((simChildren g).map (childValue ep)),
      { g with nGof := (g.catStates.filter eligible).length,
               gofArray := some (simChildren g),
               log := g.log ++ g.catStates.filterMap simModeMsg,
               init := true }) := by
  have hsim : initSimMode g =
      .ok { g with nGof := (g.catStates.filter eligible).length,
                   gofArray := some (simChildren g),
                   log := g.log ++ g.catStates.filterMap simModeMsg } := by
    unfold initSimMode
    rw [hsplit]
    rfl
  unfold evaluate initGOF
  rw [hinit, hmode, hsim]
  simp only [Bool.false_eq_true, if_false, Except.map]
  simp [gofValue, hmode]

/-- First evaluation of an uninitialized MPMaster engine (the prototype's
split succeeds when it is needed). -/
theorem evaluate_mpmaster (ep : PartitionEvaluator) (g : GOF)
    (hmode : g.gofOpMode = .MPMaster) (hinit : g.init = false)
    (hcond : (g.pdfIsSim && !g.splitOK) = false) :
    evaluate ep g = .ok (combinedValue ((mpWorkers g).map (mpfeValue ep)),
      { g with mpfeArray := some (mpWorkers g), init := true }) := by
  have hmp : initMPMode g = .ok { g with mpfeArray := some (mpWorkers g) } := by
    unfold initMPMode
    rw [hcond]
    rfl
  unfold evaluate initGOF
  rw [hinit, hmode, hmp]
  simp only [Bool.false_eq_true, if_false, Except.map]
  simp [gofValue, hmode]

/-- The values contributed by the SimMaster children are the full-range
evaluations of exactly the accepted components. -/
theorem childValue_filterMap (ep : PartitionEvaluator) (cs : List CatState) (k : Nat) :
    (cs.filterMap (childOf k)).map (childValue ep) =
    (cs.filterMap (fun s => match s.data with
      | some n => if s.hasPdf then some (s.name, n) else none
      | none => none)).map (fun p => ep p.1 0 (p.2 : Int)) := by
  induction cs with
  | nil => rfl
  | cons s t ih =>
    cases hd : s.data <;> cases hp : s.hasPdf <;>
      simp [childOf, hd, hp, ih, childValue, slaveValue, nFirstOf, nLastOf,
        Int.tdiv_one]

/-- Combining the per-selector worker values over all `N` selectors yields
the sum of the full-range component values. -/
theorem mpValue_eq (ep : PartitionEvaluator) (comps : List (String × Nat))
    (N : Nat) (hN : 1 ≤ N)
    (hadd : ∀ (s : String) (a b c : Int), 0 ≤ a → a ≤ b → b ≤ c →
      ep s a c = ep s a b + ep s b c) :
    ((List.range N).map (fun (i : Nat) =>
        combinedValue (comps.map (fun p => slaveValue ep p.1 p.2 (i : Int) (N : Int))))).sum =
    (comps.map (fun p => ep p.1 0 (p.2 : Int))).sum := by
  unfold combinedValue
  have hswap := list_sum_comm (List.range N) comps
    (fun i p => slaveValue ep p.1 p.2 (i : Int) (N : Int))
  simp only [] at hswap
  rw [hswap]
  refine congrArg List.sum (List.map_congr_left ?_)
  intro p hp
  simpa using mp_component_sum ep p.1 p.2 N hN (hadd p.1)

end RooGOF

namespace RooGOF

/-- C8: for the same model, dataset and projected-dependency set, and an
interval-additive partition evaluator, an MPMaster engine's `evaluate()`
result equals the result of evaluating the corresponding un-parallelized
engine (worker count 1, whose mode resolves to Slave or SimMaster) directly
over the full, unsplit dataset: splitting into nCPU partitions and combining
the worker results does not change the computed value (the claim's
floating-point summation tolerance becomes exact equality in the
exact-rational model). -/
theorem C8_mpmaster_equals_unsplit (ep : PartitionEvaluator) (nm : String)
    (sim : Bool) (cs : List CatState) (nE : Nat) (pd : List String) (N : Int)
    (hN : 2 ≤ N)
    (hadd : ∀ (s : String) (a b c : Int), 0 ≤ a → a ≤ b → b ≤ c →
      ep s a c = ep s a b + ep s b c) :
    ∃ v gM g1,
      evaluate ep (mkGOF nm sim true cs nE pd N) = .ok (v, gM) ∧
      evaluate ep (mkGOF nm sim true cs nE pd 1) = .ok (v, g1) := by
  obtain ⟨M, rfl⟩ : ∃ M : Nat, N = (M : Int) :=
    ⟨N.toNat, (Int.toNat_of_nonneg (by omega)).symm⟩
  have hM : 2 ≤ M := by exact_mod_cast hN
  have hmodeN : (mkGOF nm sim true cs nE pd (M : Int)).gofOpMode = .MPMaster := by
    show (if (M : Int) > 1 then GOFOpMode.MPMaster
      else if sim then GOFOpMode.SimMaster else GOFOpMode.Slave) = GOFOpMode.MPMaster
    rw [if_pos (by omega)]
  have hcond : ((mkGOF nm sim true cs nE pd (M : Int)).pdfIsSim &&
      !(mkGOF nm sim true cs nE pd (M : Int)).splitOK) = false := by
    show (sim && !true) = false
    simp
  have hMPval : combinedValue ((mpWorkers (mkGOF nm sim true cs nE pd (M : Int))).map (mpfeValue ep)) =
      ((protoComponents (mkGOF nm sim true cs nE pd (M : Int))).map (fun p => ep p.1 0 (p.2 : Int))).sum := by
    have hmv := mpValue_eq ep (protoComponents (mkGOF nm sim true cs nE pd (M : Int))) M
      (by omega) hadd
    show ((mpWorkers (mkGOF nm sim true cs nE pd (M : Int))).map (mpfeValue ep)).sum = _
    unfold mpWorkers
    rw [List.map_map]
    exact hmv
  have hMP := evaluate_mpmaster ep (mkGOF nm sim true cs nE pd (M : Int)) hmodeN rfl hcond
  rw [hMPval] at hMP
  cases sim with
  | false =>
    have h1 := evaluate_slave ep (mkGOF nm false true cs nE pd 1) rfl rfl
    have hv : slaveValue ep (mkGOF nm false true cs nE pd 1).name
        (mkGOF nm false true cs nE pd 1).nEvents (mkGOF nm false true cs nE pd 1).setNum
        (mkGOF nm false true cs nE pd 1).numSets =
        ((protoComponents (mkGOF nm false true cs nE pd (M : Int))).map (fun p => ep p.1 0 (p.2 : Int))).sum := by
      show slaveValue ep nm nE 0 1 =
        (([(nm, nE)] : List (String × Nat)).map (fun p => ep p.1 0 (p.2 : Int))).sum
      simp [slaveValue, nFirstOf, nLastOf, Int.tdiv_one]
    rw [hv] at h1
    exact ⟨_, _, _, hMP, h1⟩
  | true =>
    have h1 := evaluate_simmaster ep (mkGOF nm true true cs nE pd 1) rfl rfl rfl
    have hv : combinedValue ((simChildren (mkGOF nm true true cs nE pd 1)).map (childValue ep)) =
        ((protoComponents (mkGOF nm true true cs nE pd (M : Int))).map (fun p => ep p.1 0 (p.2 : Int))).sum := by
      show ((cs.filterMap (childOf (cs.filter eligible).length)).map (childValue ep)).sum = _
      rw [childValue_filterMap]
      rfl
    rw [hv] at h1
    exact ⟨_, _, _, hMP, h1⟩

/-- A concrete interval-additive partition evaluator: the (exact) number of
entries in the partition. -/
def epLen : PartitionEvaluator := fun _ a b => ((b - a : Int) : ℚ)

/-- Witness for C8: the hypotheses and conclusion hold at the concrete
entry-count evaluator with 7 events and 3 workers. -/
theorem C8_mpmaster_equals_unsplit_witness :
    ((2 : Int) ≤ 3 ∧ (∀ (s : String) (a b c : Int), 0 ≤ a → a ≤ b → b ≤ c →
      epLen s a c = epLen s a b + epLen s b c)) ∧
    (∃ v gM g1,
      evaluate epLen (mkGOF "p" false true [] 7 [] 3) = .ok (v, gM) ∧
      evaluate epLen (mkGOF "p" false true [] 7 [] 1) = .ok (v, g1)) :=
  ⟨⟨by decide, fun s a b c h1 h2 h3 => by unfold epLen; push_cast; ring⟩,
   C8_mpmaster_equals_unsplit epLen "p" false [] 7 [] 3 (by decide)
     (fun s a b c h1 h2 h3 => by unfold epLen; push_cast; ring)⟩

end RooGOF
